import Mathlib

/-!
Shallow embedding of the ARIA telemetry pipeline (crate aria-telemetry,
with data types from crate aria-domain) and proofs about its claims.

Modelling conventions:
- Rust `Vec<u8>` payloads are `List ℕ` (byte values; hypotheses bound them
  by 256 where it matters).
- `uuid::Uuid` is modelled as `ℕ`; `Uuid::new_v4()` draws from an explicit
  supply of fresh identifiers passed as an argument.
- `HashMap` is modelled as an association list with replace-on-insert
  semantics (`insertA`); iteration order is never observed by the
  modelled code paths (only lookup, length and membership are used).
- `f32`/`f64` are modelled as `ℚ` (the claims are about control flow and
  exact token accounting, not float rounding).
- Wall-clock time (`Instant`) is not modelled: token-bucket refill is taken
  at zero elapsed time, and fragment-buffer GC timestamps are dropped
  (no claim depends on them).
- Fallible Rust functions returning `AriaResult<T>` become `Except AriaError T`
  (or `Option` where only success/failure matters).
-/

/-- Association-list lookup, mirroring `HashMap::get`. -/
def lookupA {κ α : Type} [DecidableEq κ] : List (κ × α) → κ → Option α
  | [], _ => none
  | (k, v) :: t, key => if k = key then some v else lookupA t key

/-- Association-list insert with replacement, mirroring `HashMap::insert`. -/
def insertA {κ α : Type} [DecidableEq κ] : List (κ × α) → κ → α → List (κ × α)
  | [], k, v => [(k, v)]
  | (k', v') :: t, k, v => if k' = k then (k, v) :: t else (k', v') :: insertA t k v

/-- Association-list removal, mirroring `HashMap::remove`. -/
def removeA {κ α : Type} [DecidableEq κ] : List (κ × α) → κ → List (κ × α)
  | [], _ => []
  | (k', v') :: t, k => if k' = k then t else (k', v') :: removeA t k

/-- Priority levels, from `aria-domain/src/entities.rs` (`enum Priority`). -/
inductive Priority where
  | P0
  | P1
  | P2
  | P3
  deriving DecidableEq, Repr

/-- Fragment metadata, from `aria-domain/src/entities.rs` (`struct FragmentInfo`). -/
structure FragmentInfo where
  fragment_id : ℕ
  total_fragments : ℕ
  fragment_offset : ℕ
  deriving DecidableEq, Repr

/-- Envelope metadata, from `aria-domain/src/entities.rs` (`struct EnvelopeMetadata`).
Only the fields the verified claims read are modelled (`sequence_number`,
`fragment_info`); `source_node`, `fec_info`, `crypto_info` and `qos_class` are
carried opaquely by no claim and are omitted. -/
structure EnvelopeMetadata where
  sequence_number : ℕ
  fragment_info : Option FragmentInfo
  deriving DecidableEq, Repr

/-- The unit of transit, from `aria-domain/src/entities.rs` (`struct Envelope`).
`timestamp`, `schema_id` and `topic` are read by no verified claim and are
omitted; `id` models `uuid::Uuid`. -/
structure Envelope where
  id : ℕ
  priority : Priority
  payload : List ℕ
  metadata : EnvelopeMetadata
  deriving DecidableEq, Repr

/-- Error taxonomy, from `aria-domain/src/error.rs` (`enum AriaError`).
The `Io` payload (`std::io::Error`) is modelled as a string. Note that the
enum has no `SchemaUnknown` variant. -/
inductive AriaError where
  | Io : String → AriaError
  | Serialization : String → AriaError
  | Compression : String → AriaError
  | Crypto : String → AriaError
  | Fec : String → AriaError
  | Transport : String → AriaError
  | Model : String → AriaError
  | Sensor : String → AriaError
  | Actuator : String → AriaError
  | Planning : String → AriaError
  | Safety : String → AriaError
  | Config : String → AriaError
  | Timeout : AriaError
  | NotImplemented : String → AriaError
  | InvalidState : String → AriaError
  | Unknown : String → AriaError
  deriving DecidableEq, Repr

/-- Packetizer, from `aria-telemetry/src/packetization.rs`. -/
structure Packetizer where
  mtu : ℕ
  deriving DecidableEq, Repr

/-- `Packetizer::fragment` (packetization.rs lines 18-47). The source assigns
each fragment a fresh `uuid::Uuid::new_v4()`; fresh ids are modelled by the
supply `fresh` (fragment `i` receives `fresh.getD i 0`). The source never
returns an error, so the `AriaResult` wrapper is dropped. -/
def Packetizer.fragment (p : Packetizer) (fresh : List ℕ) (envelope : Envelope) :
    List Envelope :=
  if envelope.payload.length ≤ p.mtu then [envelope]
  else
    let num_fragments := (envelope.payload.length + p.mtu - 1) / p.mtu
    (List.range num_fragments).map fun i =>
      { envelope with
        id := fresh.getD i 0
        payload := (envelope.payload.drop (i * p.mtu)).take p.mtu
        metadata := { envelope.metadata with
          fragment_info := some ⟨i, num_fragments, i * p.mtu⟩ } }

/-- Fragment reassembly buffer, from `aria-telemetry/src/packetization.rs`
(`struct FragmentBuffer`); `last_update : Instant` is dropped (time is not
modelled; no claim touches GC). -/
structure FragmentBuffer where
  fragments : List (ℕ × List ℕ)
  total_fragments : ℕ
  original_envelope : Envelope
  deriving DecidableEq, Repr

/-- Defragmenter state, from `aria-telemetry/src/packetization.rs`
(`struct Defragmenter`); the GC `timeout` is dropped (no claim touches it). -/
structure Defragmenter where
  buffers : List (ℕ × FragmentBuffer)
  deriving DecidableEq, Repr

/-- `Defragmenter::add_fragment` (packetization.rs lines 70-109). Keying is by
`envelope.id` exactly as in the source (`let parent_id = envelope.id`). -/
def Defragmenter.add_fragment (st : Defragmenter) (envelope : Envelope) :
    Defragmenter × Option Envelope :=
  match envelope.metadata.fragment_info with
  | none => (st, some envelope)
  | some frag_info =>
    let parent_id := envelope.id
    let buffer := (lookupA st.buffers parent_id).getD
      ⟨[], frag_info.total_fragments, envelope⟩
    let buffer := { buffer with
      fragments := insertA buffer.fragments frag_info.fragment_id envelope.payload }
    if buffer.fragments.length = buffer.total_fragments then
      let payload := (List.range buffer.total_fragments).flatMap fun i =>
        (lookupA buffer.fragments i).getD []
      let complete := { buffer.original_envelope with
        payload := payload
        metadata := { buffer.original_envelope.metadata with fragment_info := none } }
      (⟨removeA st.buffers parent_id⟩, some complete)
    else
      (⟨insertA st.buffers parent_id buffer⟩, none)

/-- Feed a list of envelopes to the defragmenter in order, collecting the
result of each `add_fragment` call. -/
def Defragmenter.addAll (st : Defragmenter) : List Envelope →
    Defragmenter × List (Option Envelope)
  | [] => (st, [])
  | e :: rest =>
    let (st', o) := st.add_fragment e
    let (st'', os) := st'.addAll rest
    (st'', o :: os)

/-- Token bucket, from `aria-telemetry/src/qos.rs` (`struct TokenBucket`);
`last_refill : Instant` is dropped (refill is modelled at zero elapsed time). -/
structure TokenBucket where
  capacity : ℚ
  tokens : ℚ
  refill_rate : ℚ
  deriving DecidableEq, Repr

/-- `TokenBucket::refill` (qos.rs lines 36-41) at zero elapsed wall-clock time:
`tokens = min (tokens + 0 * refill_rate) capacity`. -/
def TokenBucket.refill (b : TokenBucket) : TokenBucket :=
  { b with tokens := min (b.tokens + 0 * b.refill_rate) b.capacity }

/-- `TokenBucket::try_consume` (qos.rs lines 43-51): refill, then consume
`count` tokens when available. Returns the success flag and the new bucket. -/
def TokenBucket.try_consume (b : TokenBucket) (count : ℚ) : Bool × TokenBucket :=
  let b := b.refill
  if count ≤ b.tokens then (true, { b with tokens := b.tokens - count })
  else (false, b)

/-- Per-priority queue, from `aria-telemetry/src/qos.rs` (`struct PriorityQueue`). -/
structure PriorityQueue where
  queue : List Envelope
  token_bucket : TokenBucket
  max_depth : ℕ
  deriving DecidableEq, Repr

/-- QoS shaper, from `aria-telemetry/src/qos.rs` (`struct QoSShaper`). The
`HashMap<Priority, PriorityQueue>` always holds all four priorities (they are
inserted in `new`), so it is modelled as a total function. The per-topic
`policies` map is read by no verified claim and is omitted. -/
structure QoSShaper where
  queues : Priority → PriorityQueue

/-- Scan loop of `QoSShaper::dequeue` (qos.rs lines 97-110). Mirrors the
source exactly: `try_consume(1.0)` is evaluated (and its state change kept)
before the queue is popped, so a token is consumed even when the scanned
queue turns out to be empty. -/
def QoSShaper.dequeueGo : QoSShaper → List Priority → QoSShaper × Option Envelope
  | s, [] => (s, none)
  | s, p :: rest =>
    let q := s.queues p
    let (ok, b') := q.token_bucket.try_consume 1
    let q' := { q with token_bucket := b' }
    let s' : QoSShaper := ⟨Function.update s.queues p q'⟩
    if ok then
      match q'.queue with
      | e :: t =>
        (⟨Function.update s'.queues p { q' with queue := t }⟩, some e)
      | [] => QoSShaper.dequeueGo s' rest
    else QoSShaper.dequeueGo s' rest

/-- `QoSShaper::dequeue` (qos.rs lines 97-110): scan P0 → P3 in order. -/
def QoSShaper.dequeue (s : QoSShaper) : QoSShaper × Option Envelope :=
  s.dequeueGo [.P0, .P1, .P2, .P3]

/-- `QoSShaper::enqueue` (qos.rs lines 85-95): drop the oldest entry when the
queue is full, then push at the back. -/
def QoSShaper.enqueue (s : QoSShaper) (envelope : Envelope) : QoSShaper :=
  let q := s.queues envelope.priority
  let q := if q.max_depth ≤ q.queue.length then { q with queue := q.queue.drop 1 } else q
  ⟨Function.update s.queues envelope.priority { q with queue := q.queue ++ [envelope] }⟩

/-- RxDeJitter state, from `aria-telemetry/src/ccem.rs` (`struct RxDeJitter`). -/
structure RxDeJitter where
  buffer : List (ℕ × Envelope)
  buffer_size : ℕ
  next_sequence : ℕ
  deriving DecidableEq, Repr

/-- Insertion at a position, mirroring `VecDeque::insert` (the position never
exceeds the length on the modelled paths). -/
def insertAt {α : Type} : ℕ → α → List α → List α
  | 0, a, l => a :: l
  | _ + 1, a, [] => [a]
  | n + 1, a, x :: t => x :: insertAt n a t

/-- Extraction loop of `RxDeJitter::add` (ccem.rs lines 77-87): while the head
sequence equals `next_sequence`, pop and emit. Returns the remaining buffer,
the new `next_sequence` and the emitted envelopes. -/
def drainLoop : List (ℕ × Envelope) → ℕ → List (ℕ × Envelope) × ℕ × List Envelope
  | [], n => ([], n, [])
  | (s, e) :: rest, n =>
    if s = n then
      let (b, n', out) := drainLoop rest (n + 1)
      (b, n', e :: out)
    else ((s, e) :: rest, n, [])

/-- `RxDeJitter::add` (ccem.rs lines 64-90): insert in sorted position
(after any entries with the same sequence, because the scan looks for
`*s > seq`), trim the front if over `buffer_size`, then drain consecutive
sequences. -/
def RxDeJitter.add (st : RxDeJitter) (envelope : Envelope) :
    RxDeJitter × List Envelope :=
  let seq := envelope.metadata.sequence_number
  let pos := st.buffer.findIdx fun se => decide (seq < se.1)
  let buf := insertAt pos (seq, envelope) st.buffer
  let buf := if st.buffer_size < buf.length then buf.drop 1 else buf
  let (buf', next', out) := drainLoop buf st.next_sequence
  ({ st with buffer := buf', next_sequence := next' }, out)

/-- Schema registry, from `aria-telemetry/src/codec.rs` (`struct SchemaRegistry`). -/
structure SchemaRegistry where
  schemas : List (ℕ × String)
  deriving DecidableEq, Repr

/-- `SchemaRegistry::register` (codec.rs lines 58-60). -/
def SchemaRegistry.register (r : SchemaRegistry) (schema_id : ℕ) (name : String) :
    SchemaRegistry :=
  ⟨insertA r.schemas schema_id name⟩

/-- `SchemaRegistry::get` (codec.rs lines 62-64). -/
def SchemaRegistry.get (r : SchemaRegistry) (schema_id : ℕ) : Option String :=
  lookupA r.schemas schema_id

/-- Protobuf codec, from `aria-telemetry/src/codec.rs` (`struct ProtobufCodec`). -/
structure ProtobufCodec where
  schema_registry : SchemaRegistry
  deriving DecidableEq, Repr

/-- `ProtobufCodec::decode` (codec.rs lines 36-45). The source is a placeholder:
it rejects empty input with `Serialization` and otherwise returns
`Ok(Box::new(schema_id))` — a boxed dummy, modelled as the `ℕ` it boxes. The
schema registry is never consulted. -/
def ProtobufCodec.decode (_c : ProtobufCodec) (bytes : List ℕ) (schema_id : ℕ) :
    Except AriaError ℕ :=
  if bytes = [] then .error (.Serialization "Empty bytes")
  else .ok schema_id

/-- System metrics, from `aria-domain/src/traits.rs` (`struct SystemMetrics`);
`f32` fields modelled as `ℚ`. -/
structure SystemMetrics where
  packet_loss_rate : ℚ
  latency_ms : ℚ
  cpu_usage : ℚ
  memory_mb : ℚ
  bandwidth_mbps : ℚ
  deriving DecidableEq, Repr

/-- Adaptation advice, from `aria-domain/src/traits.rs` (`struct HomeostasisAdvice`). -/
structure HomeostasisAdvice where
  adjust_rate : Option ℚ
  adjust_fec : Option (ℕ × ℕ)
  adjust_codec : Option String
  deriving DecidableEq, Repr

/-- Link health controller, from `aria-telemetry/src/link_health.rs`. -/
structure LinkHealthController where
  metrics : SystemMetrics
  deriving DecidableEq, Repr

/-- `LinkHealthController::advise` (link_health.rs lines 26-43): start from
all-`None` advice, set `adjust_fec` on loss > 0.1, set `adjust_codec` on
bandwidth < 1.0. No other field is ever set; `latency_ms` is never read. -/
def LinkHealthController.advise (c : LinkHealthController) : HomeostasisAdvice :=
  let advice : HomeostasisAdvice := ⟨none, none, none⟩
  let advice := if 1 / 10 < c.metrics.packet_loss_rate
    then { advice with adjust_fec := some (4, 2) } else advice
  let advice := if c.metrics.bandwidth_mbps < 1
    then { advice with adjust_codec := some "LZ4" } else advice
  advice

/-- Delta codec state, from `aria-telemetry/src/delta.rs` (`struct SimpleDeltaCodec`). -/
structure SimpleDeltaCodec where
  previous : Option (List ℕ)
  deriving DecidableEq, Repr

/-- XOR of a byte list against a reference extended with zeros, mirroring
`current.iter().zip(prev.iter().chain(repeat(&0))).map(|(c, p)| c ^ p)`
from delta.rs: the output has the length of the first argument. -/
def xorPad : List ℕ → List ℕ → List ℕ
  | [], _ => []
  | c :: cs, [] => (c ^^^ 0) :: xorPad cs []
  | c :: cs, p :: ps => (c ^^^ p) :: xorPad cs ps

/-- `SimpleDeltaCodec::encode` (delta.rs lines 16-35). Returns the emitted
bytes and the updated state. -/
def SimpleDeltaCodec.encode (st : SimpleDeltaCodec) (current : List ℕ)
    (previous : Option (List ℕ)) : List ℕ × SimpleDeltaCodec :=
  match (match previous with | some p => some p | none => st.previous) with
  | some prev => (xorPad current prev, ⟨some current⟩)
  | none => (current, ⟨some current⟩)

/-- `SimpleDeltaCodec::decode` (delta.rs lines 37-55). Returns the
reconstructed bytes and the updated state. -/
def SimpleDeltaCodec.decode (st : SimpleDeltaCodec) (delta : List ℕ)
    (previous : Option (List ℕ)) : List ℕ × SimpleDeltaCodec :=
  match (match previous with | some p => some p | none => st.previous) with
  | some prev =>
    let current := xorPad delta prev
    (current, ⟨some current⟩)
  | none => (delta, ⟨some delta⟩)

/-- Encode a sequence of frames in order, passing `previous = None` on each
call (the state carries the reference), as in the round-trip claim. -/
def encodeAll (st : SimpleDeltaCodec) : List (List ℕ) → List (List ℕ)
  | [] => []
  | f :: rest =>
    let (d, st') := st.encode f none
    d :: encodeAll st' rest

/-- Decode a sequence of deltas in order, passing `previous = None` on each
call. -/
def decodeAll (st : SimpleDeltaCodec) : List (List ℕ) → List (List ℕ)
  | [] => []
  | d :: rest =>
    let (f, st') := st.decode d none
    f :: decodeAll st' rest

/-- Keystream byte used by the idealized AEAD model (see `CryptoBox.encrypt`). -/
def ksByte (key : ℕ) (nonce : List ℕ) (i : ℕ) : ℕ :=
  (key + nonce.sum + i) % 256

/-- Byte-wise XOR masking with the keystream, starting at stream index `i`. -/
def maskBytes (key : ℕ) (nonce : List ℕ) : ℕ → List ℕ → List ℕ
  | _, [] => []
  | i, b :: bs => (b ^^^ ksByte key nonce i) :: maskBytes key nonce (i + 1) bs

/-- Crypto box, from `aria-telemetry/src/crypto.rs` (`struct CryptoBox`).
Modelled from the spec: the `chacha20poly1305` and `ed25519_dalek` crates are
external to this repository, so the AEAD cipher is modelled as an ideal
authenticated cipher (spec section 4.5): the symmetric key is an opaque `ℕ`, the
ciphertext is the keystream-masked plaintext followed by an authentication
tag that binds the `(key, nonce)` pair, and tag verification fails exactly
when the key or the 12-byte nonce differs. The Ed25519 signing keys are read
by no verified claim and are omitted. -/
structure CryptoBox where
  cipher_key : ℕ
  key_id : String
  deriving DecidableEq, Repr

/-- `CryptoBox::encrypt` (crypto.rs lines 62-68), under the ideal-AEAD model:
accepts exactly 12-byte nonces (`Nonce::from_slice` requires 96 bits). -/
def CryptoBox.encrypt (box : CryptoBox) (data : List ℕ) (nonce : List ℕ) :
    Except AriaError (List ℕ) :=
  if nonce.length = 12 then
    .ok (maskBytes box.cipher_key nonce 0 data ++ (nonce ++ [box.cipher_key]))
  else .error (.Crypto "Encryption failed: invalid nonce length")

/-- `CryptoBox::decrypt` (crypto.rs lines 70-76), under the ideal-AEAD model:
verify the authentication tag (which binds key and nonce), then unmask. -/
def CryptoBox.decrypt (box : CryptoBox) (ciphertext : List ℕ) (nonce : List ℕ) :
    Except AriaError (List ℕ) :=
  if nonce.length = 12 then
    let body := ciphertext.take (ciphertext.length - 13)
    let tag := ciphertext.drop (ciphertext.length - 13)
    if tag = nonce ++ [box.cipher_key] then
      .ok (maskBytes box.cipher_key nonce 0 body)
    else .error (.Crypto "Decryption failed: tag mismatch")
  else .error (.Crypto "Decryption failed: invalid nonce length")

/-- Key manager, from `aria-telemetry/src/crypto.rs` (`struct KeyManager`). -/
structure KeyManager where
  active_key_id : String
  keys : List (String × CryptoBox)
  deriving DecidableEq, Repr

/-- `KeyManager::new` (crypto.rs lines 90-95). -/
def KeyManager.new : KeyManager := ⟨"", []⟩

/-- `KeyManager::add_key` (crypto.rs lines 97-102): the first added key
becomes active. -/
def KeyManager.add_key (km : KeyManager) (key_id : String) (crypto_box : CryptoBox) :
    KeyManager :=
  ⟨if km.active_key_id = "" then key_id else km.active_key_id,
   insertA km.keys key_id crypto_box⟩

/-- `KeyManager::get_active_key` (crypto.rs lines 104-106). -/
def KeyManager.get_active_key (km : KeyManager) : Option CryptoBox :=
  lookupA km.keys km.active_key_id

/-- `KeyManager::get_key` (crypto.rs lines 108-110). -/
def KeyManager.get_key (km : KeyManager) (key_id : String) : Option CryptoBox :=
  lookupA km.keys key_id

/-- `KeyManager::rotate` (crypto.rs lines 112-116): only rotates to a key
already in the map; otherwise it is a silent no-op. -/
def KeyManager.rotate (km : KeyManager) (new_key_id : String) : KeyManager :=
  if (lookupA km.keys new_key_id).isSome then { km with active_key_id := new_key_id }
  else km

/-- One KeyManager operation, for stating the invariant over operation
sequences. -/
inductive KMOp where
  | addKey (key_id : String) (crypto_box : CryptoBox)
  | rotateKey (key_id : String)

/-- Apply one KeyManager operation. -/
def applyKMOp (km : KeyManager) : KMOp → KeyManager
  | .addKey kid box => km.add_key kid box
  | .rotateKey kid => km.rotate kid

/-- Run a sequence of KeyManager operations. -/
def runKMOps (km : KeyManager) (ops : List KMOp) : KeyManager :=
  ops.foldl applyKMOp km

/-- Length of the run of `b`s at the head of a list. -/
def runLen (b : ℕ) : List ℕ → ℕ
  | [] => 0
  | x :: t => if x = b then runLen b t + 1 else 0

/-- Run-length compression: emit `(run length - 1, byte)` pairs, with runs
capped at `cap + 1` bytes. -/
def rleEncode (cap : ℕ) : List ℕ → List ℕ
  | [] => []
  | b :: t =>
    let j := min cap (runLen b t)
    j :: b :: rleEncode cap (t.drop j)
  termination_by l => l.length
  decreasing_by simp; omega

/-- Run-length decompression, inverse of `rleEncode`. -/
def rleDecode : List ℕ → List ℕ
  | [] => []
  | [_] => []
  | j :: b :: t => List.replicate (j + 1) b ++ rleDecode t

/-- Fast compressor profile, from `aria-telemetry/src/compression.rs`
(`struct Lz4Compressor`). Modelled from the spec: the `lz4` crate is external
to this repository; spec section 4.2 requires a pure, symmetric, lossless
fast profile, modelled here as byte run-length coding with short (255-byte)
runs. -/
structure Lz4Compressor where
  level : ℕ
  deriving DecidableEq, Repr

/-- `Lz4Compressor::compress` (compression.rs lines 16-19), under the
spec model. -/
def Lz4Compressor.compress (_c : Lz4Compressor) (data : List ℕ) :
    Except AriaError (List ℕ) :=
  .ok (rleEncode 254 data)

/-- `Lz4Compressor::decompress` (compression.rs lines 21-24), under the
spec model. -/
def Lz4Compressor.decompress (_c : Lz4Compressor) (data : List ℕ) :
    Except AriaError (List ℕ) :=
  .ok (rleDecode data)

/-- High-ratio compressor profile, from `aria-telemetry/src/compression.rs`
(`struct ZstdCompressor`). Modelled from the spec: the `zstd` crate is
external to this repository; spec section 4.2 requires a pure, symmetric,
lossless high-ratio profile, modelled here as run-length coding with long
runs. -/
structure ZstdCompressor where
  level : ℤ
  deriving DecidableEq, Repr

/-- `ZstdCompressor::compress` (compression.rs lines 42-45), under the
spec model. -/
def ZstdCompressor.compress (_c : ZstdCompressor) (data : List ℕ) :
    Except AriaError (List ℕ) :=
  .ok (rleEncode 65534 data)

/-- `ZstdCompressor::decompress` (compression.rs lines 47-50), under the
spec model. -/
def ZstdCompressor.decompress (_c : ZstdCompressor) (data : List ℕ) :
    Except AriaError (List ℕ) :=
  .ok (rleDecode data)

instance fact_prime_257 : Fact (Nat.Prime 257) := ⟨by norm_num⟩

/-- The field used by the Reed-Solomon model. The source's `reed_solomon_erasure`
crate works over GF(2^8); that external crate is spec-modelled here (section
4.3) over the prime field with 257 elements, into which byte values embed
injectively and which keeps every field operation computable. -/
abbrev F257 : Type := ZMod 257

/-- Shard size used by `ReedSolomonFec::encode` (fec.rs line 14):
`(data.len() + k - 1) / k`. -/
def shardSize (len k : ℕ) : ℕ := (len + k - 1) / k

/-- Byte `t` of the zero-padded input (fec.rs lines 17-19: `padded.resize`). -/
def paddedByte (data : List ℕ) (t : ℕ) : ℕ := data.getD t 0

/-- Byte `j` of data shard `i` (fec.rs lines 21-25: `padded.chunks(shard_size)`),
embedded in the model field. -/
def dataVal (data : List ℕ) (ss i j : ℕ) : F257 := (paddedByte data (i * ss + j) : F257)

/-- Multiplicative inverse in `F257` by Fermat's little theorem
(`x⁻¹ = x ^ 255` for `x ≠ 0`); written as a power so that concrete instances
evaluate by kernel reduction. -/
def finv (x : F257) : F257 := x ^ (255 : ℕ)

/-- Evaluation at `x` of the Lagrange interpolating polynomial through the
points `(t, y t)` for `t ∈ T` (nodes embedded `ℕ → F257`). This is the
computable kernel of the spec-modelled Reed-Solomon code. -/
def lagEval (T : Finset ℕ) (y : ℕ → F257) (x : F257) : F257 :=
  ∑ i ∈ T, y i * ∏ j ∈ T.erase i, (x - (j : F257)) * finv ((i : F257) - (j : F257))

/-- Byte `j` of shard `i` of the spec-modelled Reed-Solomon code: the first
`k` shards carry the (padded) data; parity shard `k + r` carries the
evaluation at node `k + r` of the degree-`< k` polynomial through the data
bytes at nodes `0, …, k-1` (column-wise, one polynomial per byte position). -/
def shardVal (data : List ℕ) (k ss i j : ℕ) : F257 :=
  if i < k then dataVal data ss i j
  else lagEval (Finset.range k) (fun t => dataVal data ss t j) (i : F257)

/-- `ReedSolomonFec::encode` (fec.rs lines 9-37), with the external
`reed_solomon_erasure` core spec-modelled as the systematic Reed-Solomon
code `shardVal`. Mirrors the crate's parameter validation: it rejects
`k = 0` (`TooFewDataShards`), `m = 0` (`TooFewParityShards`),
`k + m > 256` (`TooManyShards`) and empty shards (`EmptyShard`, which
happens exactly when the input is empty); these all surface as `Err` in the
source. Note the output values are field elements of `F257` written as
naturals, so parity bytes may be 256. -/
def ReedSolomonFec.encode (data : List ℕ) (k m : ℕ) : Option (List (List ℕ)) :=
  if k = 0 ∨ m = 0 ∨ 256 < k + m ∨ data.length = 0 then none
  else
    some ((List.range (k + m)).map fun i =>
      (List.range (shardSize data.length k)).map fun j =>
        (shardVal data k (shardSize data.length k) i j).val)

/-- Indices of the present shards, in increasing order (the crate counts
present shards to decide recoverability). -/
def decodePresent (fragments : List (Option (List ℕ))) (km : ℕ) : List ℕ :=
  (List.range km).filter fun i => (fragments.getD i none).isSome

/-- Byte `j` of received fragment `i` (absent fragments and positions read as
zero; the proofs only use in-range positions of present fragments), embedded
in the model field. -/
def fragValD (fragments : List (Option (List ℕ))) (i j : ℕ) : F257 :=
  (((fragments.getD i none).getD []).getD j 0 : F257)

/-- Byte `j` of shard `i` after reconstruction: present shards are kept
verbatim (the crate's `reconstruct` leaves present shards untouched), and
missing shards are interpolated through the nodes `T` of present shards. -/
def reconVal (fragments : List (Option (List ℕ))) (T : Finset ℕ) (i j : ℕ) : F257 :=
  if (fragments.getD i none).isSome then fragValD fragments i j
  else lagEval T (fun t => fragValD fragments t j) (i : F257)

/-- `ReedSolomonFec::decode` (fec.rs lines 39-61), with the external
`reconstruct` spec-modelled: it requires exactly `k + m` slots and at least
`k` present shards (else `TooFewShardsPresent`, surfaced as `Err`), rebuilds
each missing shard by Lagrange interpolation through the first `k` present
shards, and finally concatenates the `k` data shards — exactly as the source
concatenates `shards[..k]` after `reconstruct`, without stripping padding.
The reconstructed shard length is read off the first present shard. -/
def ReedSolomonFec.decode (fragments : List (Option (List ℕ))) (k m : ℕ) :
    Option (List ℕ) :=
  if k = 0 ∨ m = 0 ∨ 256 < k + m ∨ fragments.length ≠ k + m then none
  else if (decodePresent fragments (k + m)).length < k then none
  else
    some ((List.range k).flatMap fun i =>
      (List.range
          (((fragments.getD ((decodePresent fragments (k + m)).headD 0) none).getD []).length)).map
        fun j =>
          (reconVal fragments ((decodePresent fragments (k + m)).take k).toFinset i j).val)

/-- Envelope fixture: a P1 envelope used in the QoS dequeue evaluation. -/
def qosEnvP1 : Envelope := ⟨1, .P1, [], ⟨0, none⟩⟩

/-- QoS fixture: P1 holds one envelope; every bucket holds 5 tokens. -/
def qosStateA : QoSShaper :=
  ⟨fun p => match p with
    | .P1 => ⟨[qosEnvP1], ⟨100, 5, 0⟩, 1000⟩
    | _ => ⟨[], ⟨100, 5, 0⟩, 1000⟩⟩

/-- QoS fixture: every queue empty; every bucket holds 1 token. -/
def qosStateB : QoSShaper := ⟨fun _ => ⟨[], ⟨100, 1, 0⟩, 1000⟩⟩

/-- Envelope fixture: the envelope fragmented in the packetization evaluation. -/
def pktEnv : Envelope := ⟨0, .P2, [7, 9], ⟨0, none⟩⟩

theorem replicate_runLen_append (t : List ℕ) (b : ℕ) :
    ∀ j, j ≤ runLen b t → List.replicate j b ++ t.drop j = t := by
  induction t with
  | nil =>
    intro j hj
    simp [runLen] at hj
    simp [hj]
  | cons x t ih =>
    intro j hj
    cases j with
    | zero => simp
    | succ j =>
      by_cases hx : x = b
      · subst hx
        simp [runLen] at hj
        simp only [List.replicate_succ, List.drop_succ_cons, List.cons_append,
          List.cons.injEq, true_and]
        exact ih j (by omega)
      · simp [runLen, hx] at hj

theorem rleDecode_rleEncode_of_le (cap : ℕ) :
    ∀ (n : ℕ) (l : List ℕ), l.length ≤ n → rleDecode (rleEncode cap l) = l := by
  intro n
  induction n with
  | zero =>
    intro l h
    have : l = [] := List.eq_nil_of_length_eq_zero (by omega)
    subst this
    rw [rleEncode]
    rfl
  | succ n ih =>
    intro l h
    match l with
    | [] => rw [rleEncode]; rfl
    | b :: t =>
      rw [rleEncode, rleDecode]
      rw [ih ((t.drop (min cap (runLen b t)))) (by simp at h ⊢; omega)]
      rw [List.replicate_succ, List.cons_append]
      rw [replicate_runLen_append t b _ (min_le_right _ _)]

theorem rleDecode_rleEncode (cap : ℕ) (l : List ℕ) :
    rleDecode (rleEncode cap l) = l :=
  rleDecode_rleEncode_of_le cap l.length l le_rfl

/-- C3: for every byte sequence `b` and each of the two compressor profiles
(the fast `Lz4Compressor` and the high-ratio `ZstdCompressor`),
`decompress (compress b)` succeeds and returns `b`. -/
theorem compression_roundtrip (lz : Lz4Compressor) (zs : ZstdCompressor) (b : List ℕ) :
    (lz.compress b).bind lz.decompress = .ok b ∧
    (zs.compress b).bind zs.decompress = .ok b := by
  constructor <;>
    simp [Lz4Compressor.compress, Lz4Compressor.decompress, ZstdCompressor.compress,
      ZstdCompressor.decompress, Except.bind, rleDecode_rleEncode]

theorem xorPad_xorPad (c : List ℕ) : ∀ p, xorPad (xorPad c p) p = c := by
  induction c with
  | nil => intro p; cases p <;> rfl
  | cons x cs ih =>
    intro p
    cases p with
    | nil => simp [xorPad, ih]
    | cons q qs => simp [xorPad, Nat.xor_cancel_right, ih]

theorem decodeAll_encodeAll (frames : List (List ℕ)) :
    ∀ p, decodeAll ⟨p⟩ (encodeAll ⟨p⟩ frames) = frames := by
  induction frames with
  | nil => intro p; rfl
  | cons f rest ih =>
    intro p
    cases p with
    | none =>
      simp only [encodeAll, decodeAll, SimpleDeltaCodec.encode, SimpleDeltaCodec.decode]
      exact congrArg (f :: ·) (ih (some f))
    | some q =>
      simp only [encodeAll, decodeAll, SimpleDeltaCodec.encode, SimpleDeltaCodec.decode,
        xorPad_xorPad]
      exact congrArg (f :: ·) (ih (some f))

/-- C8: encoding a sequence of frames in order with a fresh `SimpleDeltaCodec`
(`previous = None` on each call) and decoding the outputs in order with a
second fresh codec reproduces exactly the original frames. -/
theorem delta_roundtrip (frames : List (List ℕ)) :
    decodeAll ⟨none⟩ (encodeAll ⟨none⟩ frames) = frames :=
  decodeAll_encodeAll frames none

/-- C7 (code_bug evidence): `LinkHealthController::advise` never sets
`adjust_rate`, for any metrics whatsoever — in particular it does not reduce
the rate to 0.8× (nor prefer the fast compressor) when `latency_ms` exceeds
1.5× any target; concretely, metrics with latency 1000 ms and healthy loss
and bandwidth yield the all-`None` advice. -/
theorem link_health_never_adjusts_rate :
    (∀ c : LinkHealthController, c.advise.adjust_rate = none) ∧
    LinkHealthController.advise ⟨⟨0, 1000, 0, 0, 10⟩⟩ = ⟨none, none, none⟩ := by
  constructor
  · intro c
    unfold LinkHealthController.advise
    dsimp only
    split <;> split <;> rfl
  · norm_num [LinkHealthController.advise]

/-- C6 (code_bug evidence): with an empty schema registry (so schema 999 is
unknown), `ProtobufCodec::decode` on non-empty bytes returns `Ok` (a boxed
dummy) instead of failing with `SchemaUnknown` — indeed the error enum has no
such variant and the registry is never consulted. -/
theorem codec_decode_ignores_registry :
    SchemaRegistry.get ⟨[]⟩ 999 = none ∧
    ProtobufCodec.decode ⟨⟨[]⟩⟩ [0] 999 = .ok 999 :=
  ⟨rfl, rfl⟩

/-- C5 (code_bug evidence): adding an envelope whose sequence number 2 is
already buffered inserts a second entry for sequence 2 (right after the
first) instead of discarding the duplicate. -/
theorem rx_dejitter_inserts_duplicate :
    (RxDeJitter.add ⟨[(2, ⟨10, .P2, [], ⟨2, none⟩⟩)], 10, 0⟩
        ⟨11, .P2, [], ⟨2, none⟩⟩).1.buffer
      = [(2, ⟨10, .P2, [], ⟨2, none⟩⟩), (2, ⟨11, .P2, [], ⟨2, none⟩⟩)] ∧
    (RxDeJitter.add ⟨[(2, ⟨10, .P2, [], ⟨2, none⟩⟩)], 10, 0⟩
        ⟨11, .P2, [], ⟨2, none⟩⟩).2 = [] := by
  decide

/-- C4 (code_bug evidence): on `qosStateA` (P0 empty with 5 tokens, P1 holding
one envelope with 5 tokens) `dequeue` returns the P1 envelope but consumes a
token from P0's bucket as well as P1's; on `qosStateB` (all queues empty, one
token per bucket) `dequeue` returns nothing yet drains a token from every
bucket. -/
theorem qos_dequeue_token_leak :
    qosStateA.dequeue.2 = some qosEnvP1 ∧
    (qosStateA.dequeue.1.queues .P0).token_bucket.tokens = 4 ∧
    (qosStateA.dequeue.1.queues .P1).token_bucket.tokens = 4 ∧
    qosStateB.dequeue.2 = none ∧
    (qosStateB.dequeue.1.queues .P0).token_bucket.tokens = 0 ∧
    (qosStateB.dequeue.1.queues .P1).token_bucket.tokens = 0 ∧
    (qosStateB.dequeue.1.queues .P2).token_bucket.tokens = 0 ∧
    (qosStateB.dequeue.1.queues .P3).token_bucket.tokens = 0 := by
  norm_num +decide [qosStateA, qosStateB, qosEnvP1, QoSShaper.dequeue, QoSShaper.dequeueGo,
    TokenBucket.try_consume, TokenBucket.refill, Function.update]

/-- C1 (code_bug evidence): fragmenting a payload of 2 bytes at MTU 1 gives
fragments carrying fresh ids 1 and 2 — not the original envelope id 0, which
the spec requires as the correlation key — and feeding both fragments to the
defragmenter (which groups by the per-fragment `envelope.id`) yields no
reassembled envelope at all: every `add_fragment` call returns `None`. -/
theorem packetizer_fragment_correlation_bug :
    (Packetizer.fragment ⟨1⟩ [1, 2] pktEnv).map Envelope.id = [1, 2] ∧
    pktEnv.id = 0 ∧
    (Defragmenter.addAll ⟨[]⟩ (Packetizer.fragment ⟨1⟩ [1, 2] pktEnv)).2
      = [none, none] := by
  decide

theorem maskBytes_length (key : ℕ) (nonce : List ℕ) :
    ∀ (i : ℕ) (bs : List ℕ), (maskBytes key nonce i bs).length = bs.length := by
  intro i bs
  induction bs generalizing i with
  | nil => rfl
  | cons b bs ih => simp [maskBytes, ih]

theorem maskBytes_maskBytes (key : ℕ) (nonce : List ℕ) :
    ∀ (i : ℕ) (bs : List ℕ), maskBytes key nonce i (maskBytes key nonce i bs) = bs := by
  intro i bs
  induction bs generalizing i with
  | nil => rfl
  | cons b bs ih => simp [maskBytes, Nat.xor_cancel_right, ih]

/-- C9: for every crypto box, plaintext and 12-byte nonce `n`,
`decrypt (encrypt data n) n` succeeds and returns `data`; and for every
12-byte nonce `n' ≠ n`, `decrypt (encrypt data n) n'` returns an error. -/
theorem crypto_encrypt_decrypt (box : CryptoBox) (data n n' : List ℕ)
    (hn : n.length = 12) (hn' : n'.length = 12) (hne : n' ≠ n) :
    ((box.encrypt data n).bind fun ct => box.decrypt ct n) = .ok data ∧
    ((box.encrypt data n).bind fun ct => box.decrypt ct n')
      = .error (.Crypto "Decryption failed: tag mismatch") := by
  have hA : (maskBytes box.cipher_key n 0 data).length = data.length :=
    maskBytes_length box.cipher_key n 0 data
  have hB : (n ++ [box.cipher_key]).length = 13 := by simp [hn]
  have hlen : (maskBytes box.cipher_key n 0 data ++ (n ++ [box.cipher_key])).length - 13
      = (maskBytes box.cipher_key n 0 data).length := by
    rw [List.length_append, hB]
    omega
  simp only [CryptoBox.encrypt, if_pos hn, Except.bind, CryptoBox.decrypt]
  rw [if_pos hn', hlen, List.take_left, List.drop_left]
  constructor
  · rw [if_pos rfl, maskBytes_maskBytes]
  · rw [if_neg]
    intro h
    exact hne (List.append_inj h (hn.trans hn'.symm)).1.symm

/-- Witness for C9 at a concrete box, plaintext and nonce pair. -/
theorem crypto_encrypt_decrypt_witness :
    ((CryptoBox.encrypt ⟨5, "key1"⟩ [1, 2, 3] (List.replicate 12 0)).bind fun ct =>
        CryptoBox.decrypt ⟨5, "key1"⟩ ct (List.replicate 12 0)) = .ok [1, 2, 3] ∧
    ((CryptoBox.encrypt ⟨5, "key1"⟩ [1, 2, 3] (List.replicate 12 0)).bind fun ct =>
        CryptoBox.decrypt ⟨5, "key1"⟩ ct (1 :: List.replicate 11 0))
      = .error (.Crypto "Decryption failed: tag mismatch") :=
  crypto_encrypt_decrypt ⟨5, "key1"⟩ [1, 2, 3] (List.replicate 12 0)
    (1 :: List.replicate 11 0) (by decide) (by decide) (by decide)

theorem lookupA_insertA_self {κ α : Type} [DecidableEq κ] (l : List (κ × α)) (k : κ) (v : α) :
    lookupA (insertA l k v) k = some v := by
  induction l with
  | nil => simp [insertA, lookupA]
  | cons p t ih =>
    by_cases h : p.1 = k
    · simp [insertA, h, lookupA]
    · simp [insertA, h, lookupA, ih]

theorem lookupA_insertA_ne {κ α : Type} [DecidableEq κ] (l : List (κ × α)) (k k' : κ) (v : α)
    (h : k' ≠ k) : lookupA (insertA l k v) k' = lookupA l k' := by
  induction l with
  | nil =>
    simp only [insertA, lookupA]
    rw [if_neg (fun he => h (Eq.symm he))]
  | cons p t ih =>
    by_cases hp : p.1 = k
    · simp only [insertA, if_pos hp, lookupA]
      rw [if_neg (fun he => h he.symm), if_neg (fun he => (h (hp ▸ he).symm))]
    · simp only [insertA, if_neg hp, lookupA]
      by_cases hq : p.1 = k'
      · rw [if_pos hq, if_pos hq]
      · rw [if_neg hq, if_neg hq, ih]

theorem kmInv_run (ops : List KMOp) : ∀ km : KeyManager,
    ((km.keys = [] ∧ km.active_key_id = "") ∨ (km.get_active_key).isSome) →
    (((runKMOps km ops).keys = [] ∧ (runKMOps km ops).active_key_id = "") ∨
      ((runKMOps km ops).get_active_key).isSome) := by
  induction ops with
  | nil => intro km h; exact h
  | cons op rest ih =>
    intro km h
    show ((runKMOps (applyKMOp km op) rest).keys = [] ∧ _) ∨ _
    refine ih (applyKMOp km op) ?_
    cases op with
    | addKey kid box =>
      right
      by_cases hact : km.active_key_id = ""
      · simp [applyKMOp, KeyManager.add_key, KeyManager.get_active_key, hact,
          lookupA_insertA_self]
      · rcases h with ⟨_, hid⟩ | hsome
        · exact absurd hid hact
        · simp only [applyKMOp, KeyManager.add_key, KeyManager.get_active_key, if_neg hact]
          by_cases hk : km.active_key_id = kid
          · rw [hk, lookupA_insertA_self]; rfl
          · rw [lookupA_insertA_ne _ _ _ _ hk]
            exact hsome
    | rotateKey kid =>
      simp only [applyKMOp, KeyManager.rotate]
      by_cases hr : (lookupA km.keys kid).isSome
      · right
        simp only [if_pos hr, KeyManager.get_active_key]
        exact hr
      · rw [if_neg hr]
        exact h

/-- C10: on every sequence of `add_key`/`rotate` operations from `new`, once
the key map is non-empty `active_key_id` names a key in the map, so
`get_active_key` returns `Some`; and `rotate` with an unknown `key_id` is a
silent no-op on the whole state. -/
theorem keymanager_active_key_invariant :
    (∀ ops : List KMOp, (runKMOps KeyManager.new ops).keys ≠ [] →
      ((runKMOps KeyManager.new ops).get_active_key).isSome = true) ∧
    (∀ (km : KeyManager) (kid : String), km.get_key kid = none → km.rotate kid = km) := by
  constructor
  · intro ops hne
    rcases kmInv_run ops KeyManager.new (Or.inl ⟨rfl, rfl⟩) with ⟨hk, _⟩ | hs
    · exact absurd hk hne
    · exact hs
  · intro km kid h
    simp [KeyManager.rotate, KeyManager.get_key] at h ⊢
    simp [h]

/-- Witness for C10 at a concrete operation sequence and a concrete unknown
rotation target. -/
theorem keymanager_active_key_invariant_witness :
    ((runKMOps KeyManager.new [KMOp.addKey "a" ⟨1, "a"⟩]).get_active_key).isSome = true ∧
    KeyManager.rotate ⟨"a", [("a", ⟨1, "a"⟩)]⟩ "missing" = ⟨"a", [("a", ⟨1, "a"⟩)]⟩ :=
  ⟨keymanager_active_key_invariant.1 [KMOp.addKey "a" ⟨1, "a"⟩] (by decide),
   keymanager_active_key_invariant.2 ⟨"a", [("a", ⟨1, "a"⟩)]⟩ "missing" (by decide)⟩

theorem finv_eq (x : F257) : finv x = x⁻¹ := by
  by_cases h : x = 0
  · subst h
    rw [finv, zero_pow (by norm_num), inv_zero]
  · have h1 : x ^ (255 : ℕ) * x = 1 := by
      rw [← pow_succ]
      have := ZMod.pow_card_sub_one_eq_one h
      norm_num at this ⊢
      exact this
    exact eq_inv_of_mul_eq_one_left h1

theorem lagEval_eq_interpolate (T : Finset ℕ) (y : ℕ → F257) (x : F257) :
    lagEval T y x
      = (Lagrange.interpolate T (fun t : ℕ => (t : F257)) y).eval x := by
  rw [Lagrange.interpolate_apply, Polynomial.eval_finset_sum, lagEval]
  refine Finset.sum_congr rfl fun i _ => ?_
  rw [Polynomial.eval_mul, Polynomial.eval_C, Lagrange.basis, Polynomial.eval_prod]
  refine congrArg (fun z => y i * z) ?_
  refine Finset.prod_congr rfl fun j _ => ?_
  rw [Lagrange.basisDivisor, Polynomial.eval_mul, Polynomial.eval_C, Polynomial.eval_sub,
    Polynomial.eval_X, Polynomial.eval_C, finv_eq, mul_comm]

theorem natCast_injOn_lt (T : Finset ℕ) (hT : ∀ i ∈ T, i < 257) :
    Set.InjOn (fun t : ℕ => (t : F257)) T := by
  intro a ha b hb hab
  have ha' : a < 257 := hT a (Finset.mem_coe.mp ha)
  have hb' : b < 257 := hT b (Finset.mem_coe.mp hb)
  have : ((a : ℕ) : F257).val = ((b : ℕ) : F257).val := congrArg ZMod.val hab
  rwa [ZMod.val_cast_of_lt ha', ZMod.val_cast_of_lt hb'] at this

theorem shardVal_eq_eval (data : List ℕ) (k ss : ℕ) (hk : k ≤ 257) (i j : ℕ) :
    shardVal data k ss i j
      = (Lagrange.interpolate (Finset.range k) (fun t : ℕ => (t : F257))
          (fun t => dataVal data ss t j)).eval (i : F257) := by
  have hinj : Set.InjOn (fun t : ℕ => (t : F257)) (Finset.range k) :=
    natCast_injOn_lt _ (fun t ht => lt_of_lt_of_le (Finset.mem_range.mp ht) hk)
  rw [shardVal]
  split
  case isTrue h =>
    rw [Lagrange.eval_interpolate_at_node _ hinj (Finset.mem_range.mpr h)]
  case isFalse h =>
    exact lagEval_eq_interpolate _ _ _

theorem lagEval_agrees (k : ℕ) (hk : k ≤ 257) (w : ℕ → F257) (T : Finset ℕ)
    (hT : ∀ i ∈ T, i < 257) (hcard : T.card = k) (y : ℕ → F257)
    (hy : ∀ t ∈ T, y t
      = (Lagrange.interpolate (Finset.range k) (fun t : ℕ => (t : F257)) w).eval (t : F257))
    (x : F257) :
    lagEval T y x
      = (Lagrange.interpolate (Finset.range k) (fun t : ℕ => (t : F257)) w).eval x := by
  have hinjT : Set.InjOn (fun t : ℕ => (t : F257)) T := natCast_injOn_lt T hT
  have hinjR : Set.InjOn (fun t : ℕ => (t : F257)) (Finset.range k) :=
    natCast_injOn_lt _ (fun t ht => lt_of_lt_of_le (Finset.mem_range.mp ht) hk)
  have hdeg :
      (Lagrange.interpolate (Finset.range k) (fun t : ℕ => (t : F257)) w).degree < T.card := by
    rw [hcard]
    have := Lagrange.degree_interpolate_lt w hinjR
    rwa [Finset.card_range] at this
  have hp := Lagrange.eq_interpolate_of_eval_eq y hinjT hdeg (fun i hi => (hy i hi).symm)
  rw [lagEval_eq_interpolate, ← hp]

theorem le_shardSize_mul (len k : ℕ) (hk : k ≠ 0) : len ≤ shardSize len k * k := by
  have kpos : 0 < k := Nat.pos_of_ne_zero hk
  have key : ∀ A r : ℕ, A + r = len + k - 1 → r < k → len ≤ A := by
    intro A r h1 h2
    omega
  refine key _ ((len + k - 1) % k) ?_ (Nat.mod_lt _ kpos)
  rw [shardSize, mul_comm]
  exact Nat.div_add_mod _ _

theorem shardSize_pos (len k : ℕ) (hl : len ≠ 0) (hk : k ≠ 0) : 0 < shardSize len k := by
  rcases Nat.eq_zero_or_pos (shardSize len k) with h | h
  · have := le_shardSize_mul len k hk
    rw [h, zero_mul] at this
    omega
  · exact h

theorem paddedByte_lt (data : List ℕ) (hdata : ∀ b ∈ data, b < 256) (t : ℕ) :
    paddedByte data t < 257 := by
  rw [paddedByte]
  by_cases h : t < data.length
  · rw [List.getD_eq_getElem data 0 h]
    exact lt_trans (hdata _ (List.getElem_mem h)) (by norm_num)
  · rw [List.getD_eq_default data 0 (by omega)]
    norm_num

theorem flatMap_range_chunk {α : Type} (f : ℕ → α) (ss : ℕ) :
    ∀ k, ((List.range k).flatMap fun i => (List.range ss).map fun j => f (i * ss + j))
      = (List.range (k * ss)).map f := by
  intro k
  induction k with
  | zero => simp
  | succ k ih =>
    rw [List.range_succ, List.flatMap_append, ih, Nat.succ_mul, List.range_add,
      List.map_append, List.map_map]
    simp [Function.comp, Nat.add_comm]

theorem map_range_getD (l : List ℕ) :
    ∀ N, l.length ≤ N →
      (List.range N).map (fun t => l.getD t 0) = l ++ List.replicate (N - l.length) 0 := by
  induction l with
  | nil =>
    intro N _
    simp [List.map_const']
  | cons a l ih =>
    intro N hN
    obtain ⟨N', rfl⟩ : ∃ N', N = N' + 1 := ⟨N - 1, by simp at hN; omega⟩
    rw [List.range_succ_eq_map, List.map_cons, List.map_map]
    have : ((fun t => (a :: l).getD t 0) ∘ Nat.succ) = fun t => l.getD t 0 := by
      funext t
      simp [List.getD_cons_succ]
    rw [this, ih N' (by simp at hN; omega)]
    simp

/-- C2 (amended): for all `(k, m)` on which `encode` succeeds (so `k, m ≥ 1`,
`k + m ≤ 256`, non-empty input) and every subset of at least `k` of the
`k + m` shards (missing shards marked `none`), `decode` returns the original
data zero-padded to `⌈len/k⌉ * k` bytes — its first `len` bytes are exactly
the original, but the residual padding is not stripped. -/
theorem fec_decode_returns_padded (data : List ℕ) (k m : ℕ) (shards : List (List ℕ))
    (fragments : List (Option (List ℕ)))
    (hdata : ∀ b ∈ data, b < 256)
    (henc : ReedSolomonFec.encode data k m = some shards)
    (hflen : fragments.length = k + m)
    (hsub : ∀ i, i < k + m →
      fragments.getD i none = none ∨ fragments.getD i none = some (shards.getD i []))
    (hpres : k ≤ (decodePresent fragments (k + m)).length) :
    ReedSolomonFec.decode fragments k m
      = some (data ++ List.replicate (shardSize data.length k * k - data.length) 0) := by
  rw [ReedSolomonFec.encode] at henc
  by_cases hguard : k = 0 ∨ m = 0 ∨ 256 < k + m ∨ data.length = 0
  · rw [if_pos hguard] at henc
    exact absurd henc (by simp)
  rw [if_neg hguard] at henc
  push_neg at hguard
  obtain ⟨hk0, hm0, hkm, hd0⟩ := hguard
  have hshards : shards = (List.range (k + m)).map fun i =>
      (List.range (shardSize data.length k)).map fun j =>
        (shardVal data k (shardSize data.length k) i j).val := (Option.some.inj henc).symm
  set ss := shardSize data.length k with hss
  set P := decodePresent fragments (k + m) with hP
  set T := (P.take k).toFinset with hT
  have hkm' : k ≤ 257 := by omega
  have hPmem : ∀ i, i ∈ P ↔ i < k + m ∧ (fragments.getD i none).isSome = true := by
    intro i
    rw [hP, decodePresent, List.mem_filter, List.mem_range]
  have hfrag : ∀ i ∈ P, fragments.getD i none = some (shards.getD i []) := by
    intro i hi
    obtain ⟨hilt, hisome⟩ := (hPmem i).mp hi
    rcases hsub i hilt with h | h
    · rw [h] at hisome
      exact absurd hisome (by simp)
    · exact h
  have hgetshard : ∀ i, i < k + m → shards.getD i []
      = (List.range ss).map fun j => (shardVal data k ss i j).val := by
    intro i hi
    rw [hshards, List.getD_eq_getElem _ _ (by simpa using hi)]
    simp
  have hfragval : ∀ t ∈ P, ∀ j, j < ss → fragValD fragments t j = shardVal data k ss t j := by
    intro t ht j hj
    rw [fragValD, hfrag t ht, Option.getD_some, hgetshard t ((hPmem t).mp ht).1,
      List.getD_eq_getElem _ _ (by simpa using hj)]
    simp only [List.getElem_map, List.getElem_range]
    exact ZMod.natCast_rightInverse _
  have hPnodup : P.Nodup := by
    rw [hP, decodePresent]
    exact (List.nodup_range _).filter _
  have htake_len : (P.take k).length = k := by
    rw [List.length_take]
    omega
  have htake_nodup : (P.take k).Nodup := (List.take_sublist k P).nodup hPnodup
  have hTcard : T.card = k := by
    rw [hT, List.toFinset_card_of_nodup htake_nodup, htake_len]
  have hTsub : ∀ t ∈ T, t ∈ P := by
    intro t ht
    rw [hT, List.mem_toFinset] at ht
    exact List.take_subset k P ht
  have hTlt : ∀ t ∈ T, t < 257 := fun t ht =>
    lt_of_lt_of_le ((hPmem t).mp (hTsub t ht)).1 (by omega)
  have hrecon : ∀ i, i < k + m → ∀ j, j < ss →
      reconVal fragments T i j = shardVal data k ss i j := by
    intro i hi j hj
    rw [reconVal]
    split
    case isTrue hs => exact hfragval i ((hPmem i).mpr ⟨hi, hs⟩) j hj
    case isFalse hs =>
      have hy : ∀ t ∈ T, fragValD fragments t j
          = (Lagrange.interpolate (Finset.range k) (fun t : ℕ => (t : F257))
              (fun t => dataVal data ss t j)).eval (t : F257) := by
        intro t ht
        rw [hfragval t (hTsub t ht) j hj, shardVal_eq_eval data k ss hkm' t j]
      rw [lagEval_agrees k hkm' (fun t => dataVal data ss t j) T hTlt hTcard _ hy]
      exact (shardVal_eq_eval data k ss hkm' i j).symm
  rw [ReedSolomonFec.decode, ← hP, ← hT]
  rw [if_neg (by push_neg; exact ⟨hk0, hm0, by omega, hflen⟩)]
  rw [if_neg (not_lt.mpr hpres)]
  have hPne : P ≠ [] := by
    intro h
    rw [h] at hpres
    simp at hpres
    omega
  have hhead : P.headD 0 ∈ P := by
    cases hcP : P with
    | nil => exact absurd hcP hPne
    | cons a t => simp [hcP]
  have hsslen : ((fragments.getD (P.headD 0) none).getD []).length = ss := by
    rw [hfrag _ hhead, Option.getD_some, hgetshard _ ((hPmem _).mp hhead).1]
    simp
  rw [hsslen]
  refine congrArg some ?_
  have hstep1 : ((List.range k).flatMap fun i =>
        (List.range ss).map fun j => (reconVal fragments T i j).val)
      = (List.range k).flatMap fun i =>
        (List.range ss).map fun j => paddedByte data (i * ss + j) := by
    refine List.flatMap_congr fun i hi => ?_
    refine List.map_congr_left fun j hj => ?_
    rw [List.mem_range] at hi hj
    rw [hrecon i (by omega) j hj]
    rw [shardVal, if_pos hi, dataVal, ZMod.val_cast_of_lt (paddedByte_lt data hdata _)]
  rw [hstep1, flatMap_range_chunk (paddedByte data) ss k]
  have hpb : (paddedByte data) = fun t => data.getD t 0 := rfl
  rw [hpb, map_range_getD data (k * ss) (by
    have h1 := le_shardSize_mul data.length k hk0
    rw [← hss] at h1
    have h2 : k * ss = ss * k := Nat.mul_comm k ss
    omega)]
  have hlen2 : k * ss = ss * k := Nat.mul_comm k ss
  rw [hlen2]

set_option maxRecDepth 10000 in
/-- Counterexample to C2 as stated: encoding the single byte `[1]` with
`(k, m) = (2, 1)` and decoding from all three shards (a subset of size
`3 ≥ k`) returns `[1, 0]` — the zero-padded block — not the original `[1]`:
the length differs and the residual padding is not stripped. -/
theorem fec_roundtrip_counterexample :
    ReedSolomonFec.encode [1] 2 1 = some [[1], [0], [256]] ∧
    ReedSolomonFec.decode [some [1], some [0], some [256]] 2 1 = some [1, 0] ∧
    ([1, 0] : List ℕ) ≠ [1] := by
  decide

set_option maxRecDepth 10000 in
/-- Witness for C2 (amended) at `data = [1, 2, 3]`, `(k, m) = (2, 1)` with
shard 0 missing: decode returns the data padded with one zero. -/
theorem fec_decode_returns_padded_witness :
    ReedSolomonFec.decode [none, some [3, 0], some [5, 255]] 2 1
      = some ([1, 2, 3] ++ List.replicate (shardSize (List.length [1, 2, 3]) 2 * 2
          - List.length [1, 2, 3]) 0) :=
  fec_decode_returns_padded [1, 2, 3] 2 1 [[1, 2], [3, 0], [5, 255]]
    [none, some [3, 0], some [5, 255]]
    (by decide) (by decide) (by decide) (by decide) (by decide)
